import Mathlib

/-!
Shallow embedding of the Collaborative-Canvas server core
(`drawing-state.js`, `rooms.js`, `server.js`).

JavaScript `Map` objects are modelled as insertion-ordered association
lists (`List (κ × ν)`); `Map.set` on an existing key updates the entry in
place, otherwise appends, matching JS `Map` iteration-order semantics.
Point coordinates are never computed with on the server (they are only
accumulated and relayed), so `Float` fields are modelled as `Int`.
Nondeterministic inputs of the source (`uuidv4()`, `Date.now()`) are passed
in as explicit arguments.
-/

set_option autoImplicit false

namespace Canvas

/-- Association-list model of a JS `Map`: `get(k)`. -/
def mapGet {κ ν : Type} [DecidableEq κ] (m : List (κ × ν)) (k : κ) : Option ν :=
  (m.find? (fun p => p.1 = k)).map (fun p => p.2)

/-- Association-list model of a JS `Map`: `has(k)`. -/
def mapHas {κ ν : Type} [DecidableEq κ] (m : List (κ × ν)) (k : κ) : Bool :=
  m.any (fun p => p.1 = k)

/-- Association-list model of a JS `Map`: `set(k, v)` updates in place if the
key is present, else appends (JS `Map` insertion-order semantics). -/
def mapSet {κ ν : Type} [DecidableEq κ] (m : List (κ × ν)) (k : κ) (v : ν) : List (κ × ν) :=
  if mapHas m k then m.map (fun p => if p.1 = k then (k, v) else p)
  else m ++ [(k, v)]

/-- Association-list model of a JS `Map`: `delete(k)`. -/
def mapDelete {κ ν : Type} [DecidableEq κ] (m : List (κ × ν)) (k : κ) : List (κ × ν) :=
  m.filter (fun p => p.1 ≠ k)

/-- A point sent by a client. The server never computes with coordinates. -/
structure Point where
  x : Int
  y : Int
deriving DecidableEq, Repr

/-- A committed stroke command, one entry of `DrawingState.commandLog`
(`drawing-state.js` line 28): `{ id, authorId, authorName, authorColor,
points, color, width, tool, undone, timestamp }`. -/
structure Command where
  id : String
  authorId : String
  authorName : String
  authorColor : String
  points : List Point
  color : String
  width : Nat
  tool : String
  undone : Bool
  timestamp : Nat
deriving DecidableEq, Repr

/-- The authoritative drawing state of a room (`class DrawingState`):
the append-only command log plus the `commandId -> index` lookup map. -/
structure DrawingState where
  commandLog : List Command
  commandIndex : List (String × Nat)
deriving DecidableEq, Repr

/-- The `DrawingState` constructor: empty log, empty index. -/
def DrawingState.empty : DrawingState := { commandLog := [], commandIndex := [] }

/-- DrawingState.addCommand: sets `undone = false`, stamps the timestamp
(`Date.now()` is passed in as `now`), records `id -> commandLog.length` in
the index, pushes the command, and returns it. -/
def DrawingState.addCommand (s : DrawingState) (command : Command) (now : Nat) :
    DrawingState × Command :=
  let command := { command with undone := false, timestamp := now }
  ({ commandLog := s.commandLog ++ [command],
     commandIndex := mapSet s.commandIndex command.id s.commandLog.length },
   command)

/-- The result object `{ action, commandId }` returned by undo/redo. -/
structure UndoResult where
  action : String
  commandId : String
deriving DecidableEq, Repr

/-- Shared core of the two backward scans in `drawing-state.js`: walk the log
from the end (`for (let i = length - 1; i >= 0; i--)`) for the last entry
whose `undone` flag equals `target`, set that flag to `!target`, and return
the updated log with the entry's id.  `undo` is the `target = false` scan,
`redo` the `target = true` scan.  The recursion prefers a hit in the tail,
which is exactly the backwards loop. -/
def flipLastCore (target : Bool) : List Command → Option (List Command × String)
  | [] => none
  | c :: rest =>
    match flipLastCore target rest with
    | some (rest1, cid) => some (c :: rest1, cid)
    | none =>
      if c.undone = target then some ({ c with undone := !target } :: rest, c.id)
      else none

/-- DrawingState.undo: flips the last non-undone command to `undone = true`
and returns `{ action: 'undo', commandId }`; returns `null` (here `none`)
and leaves the state unchanged when every command is undone. -/
def DrawingState.undo (s : DrawingState) : DrawingState × Option UndoResult :=
  match flipLastCore false s.commandLog with
  | none => (s, none)
  | some (log1, cid) =>
    ({ s with commandLog := log1 }, some { action := "undo", commandId := cid })

/-- DrawingState.redo: flips the last undone command back to `undone = false`
and returns `{ action: 'redo', commandId }`; returns `none` when no command
is undone. -/
def DrawingState.redo (s : DrawingState) : DrawingState × Option UndoResult :=
  match flipLastCore true s.commandLog with
  | none => (s, none)
  | some (log1, cid) =>
    ({ s with commandLog := log1 }, some { action := "redo", commandId := cid })

/-- DrawingState.getFullState: the whole command log. -/
def DrawingState.getFullState (s : DrawingState) : List Command :=
  s.commandLog

/-- DrawingState.getActiveCommands: `commandLog.filter(cmd => !cmd.undone)`. -/
def DrawingState.getActiveCommands (s : DrawingState) : List Command :=
  s.commandLog.filter (fun cmd => !cmd.undone)

/-- A connected user as stored in `Room.users` (`rooms.js`):
`{ id, name, color, socketId }`. -/
structure User where
  id : String
  name : String
  color : String
  socketId : String
deriving DecidableEq, Repr

/-- The `USER_COLORS` high-contrast palette of `rooms.js`. -/
def USER_COLORS : List String :=
  ["#e74c3c", "#3498db", "#2ecc71", "#f39c12", "#9b59b6",
   "#1abc9c", "#e67e22", "#e91e63", "#00bcd4", "#ff5722"]

/-- A drawing room (`class Room`): `users` is the JS Map
`socketId -> user`, plus the room's own `DrawingState` and the
round-robin `colorIndex`. -/
structure Room where
  id : String
  users : List (String × User)
  drawingState : DrawingState
  colorIndex : Nat
deriving DecidableEq, Repr

/-- The `Room` constructor. -/
def Room.new (roomId : String) : Room :=
  { id := roomId, users := [], drawingState := DrawingState.empty, colorIndex := 0 }

/-- Room.addUser: builds the user with a fresh id (`uuidv4()` is passed in
as `freshId`), the JS-falsy name default, and the next palette color, then
bumps `colorIndex` and registers the user under its socket id. -/
def Room.addUser (r : Room) (socketId : String) (name : String) (freshId : String) :
    Room × User :=
  let user : User :=
    { id := freshId,
      name := if name = "" then "User " ++ toString (r.users.length + 1) else name,
      color := (USER_COLORS.get? (r.colorIndex % USER_COLORS.length)).getD "",
      socketId := socketId }
  ({ r with colorIndex := r.colorIndex + 1, users := mapSet r.users socketId user },
   user)

/-- Room.removeUser: looks the user up by socket id, deletes the entry,
and returns the removed user or `null`. -/
def Room.removeUser (r : Room) (socketId : String) : Room × Option User :=
  let user := mapGet r.users socketId
  ({ r with users := mapDelete r.users socketId }, user)

/-- The public shape of a user in `Room.getUserList` (socket id stripped). -/
structure PublicUser where
  id : String
  name : String
  color : String
deriving DecidableEq, Repr

/-- Room.getUserList: all users without their socket ids. -/
def Room.getUserList (r : Room) : List PublicUser :=
  r.users.map (fun p => { id := p.2.id, name := p.2.name, color := p.2.color })

/-- Room.isEmpty: `users.size === 0`. -/
def Room.isEmpty (r : Room) : Bool :=
  r.users.isEmpty

/-- Room.getUser: lookup by socket id, `null` if absent. -/
def Room.getUser (r : Room) (socketId : String) : Option User :=
  mapGet r.users socketId

/-- The `RoomManager`: the process-wide JS Map `roomId -> Room`. -/
structure RoomManager where
  rooms : List (String × Room)
deriving DecidableEq, Repr

/-- RoomManager.getOrCreateRoom: creates the room if absent, then returns
the stored room.  (JS returns a live reference; every mutation of the
returned room is written back explicitly with `mapSet` at its use sites.) -/
def RoomManager.getOrCreateRoom (m : RoomManager) (roomId : String) : RoomManager × Room :=
  match mapGet m.rooms roomId with
  | some r => (m, r)
  | none =>
    let r := Room.new roomId
    ({ rooms := mapSet m.rooms roomId r }, r)

/-- RoomManager.deleteRoom. -/
def RoomManager.deleteRoom (m : RoomManager) (roomId : String) : RoomManager :=
  { rooms := mapDelete m.rooms roomId }

/-- RoomManager.hasRoom. -/
def RoomManager.hasRoom (m : RoomManager) (roomId : String) : Bool :=
  mapHas m.rooms roomId

/-- An in-flight (started, not yet ended) stroke, the value type of the
per-room table in `server.js`:
`{ points[], color, width, tool, authorId, authorName, authorColor }`. -/
structure InFlightStroke where
  points : List Point
  color : String
  width : Nat
  tool : String
  authorId : String
  authorName : String
  authorColor : String
deriving DecidableEq, Repr

/-- The process-wide server state of `server.js`: the shared `roomManager`
and the `inFlightStrokes` map `roomId -> Map<strokeId, strokeData>`. -/
structure ServerState where
  roomManager : RoomManager
  inFlightStrokes : List (String × List (String × InFlightStroke))
deriving DecidableEq, Repr

/-- The server state at process start. -/
def ServerState.initial : ServerState :=
  { roomManager := { rooms := [] }, inFlightStrokes := [] }

/-- getInFlightForRoom: returns the room's stroke table, creating (and
storing) an empty one if absent.  The JS function mutates the global map,
so the possibly-updated server state is returned alongside. -/
def getInFlightForRoom (s : ServerState) (roomId : String) :
    ServerState × List (String × InFlightStroke) :=
  match mapGet s.inFlightStrokes roomId with
  | some t => (s, t)
  | none => ({ s with inFlightStrokes := mapSet s.inFlightStrokes roomId [] }, [])

/-- The per-connection closure state of `server.js`:
`let currentRoom = null; let currentUser = null;`. -/
structure ConnState where
  currentRoom : Option String
  currentUser : Option User
deriving DecidableEq, Repr

/-- Where an outbound event goes: `socket.emit` (requester only),
`socket.to(room).emit` (everyone else in the room), or `io.to(room).emit`
(everyone in the room, sender included). -/
inductive Target where
  | toSocket (socketId : String)
  | toOthers (roomId : String)
  | toRoom (roomId : String)
deriving DecidableEq, Repr

/-- The payload shapes of outbound events (see the protocol comment at the
top of `server.js`). -/
inductive Payload where
  | errorMsg (message : String)
  | roomState (users : List PublicUser) (commandLog : List Command) (myUser : User)
  | userJoined (u : PublicUser)
  | drawStartData (strokeId : String) (points : List Point) (color : String)
      (width : Nat) (tool : String) (authorId : String) (authorColor : String)
  | drawContinueData (strokeId : String) (points : List Point)
  | drawEndData (strokeId : String) (fullCommand : Command)
  | cursorMoveData (userId : String) (name : String) (color : String) (x : Int) (y : Int)
  | undoRedoData (r : UndoResult)
  | userLeft (userId : String)
deriving DecidableEq, Repr

/-- One outbound emission: target, event name, payload. -/
structure Emit where
  target : Target
  event : String
  payload : Payload
deriving DecidableEq, Repr

/-- The `join_room` handler.  `roomId` is `Option String` so that a missing
field (JS `undefined`) is representable; the JS guard
`!roomId || typeof roomId !== 'string'` rejects `undefined` and the empty
string.  `socket.leave(currentRoom)` only leaves the transport-level
broadcast channel and touches no core state, so it has no model effect.
`uuidv4()` for the new user is passed in as `freshId`. -/
def handleJoinRoom (s : ServerState) (c : ConnState) (socketId : String)
    (roomId : Option String) (userName : String) (freshId : String) :
    ServerState × ConnState × List Emit :=
  match roomId with
  | none =>
    (s, c, [{ target := Target.toSocket socketId, event := "error",
              payload := Payload.errorMsg "Invalid room ID" }])
  | some rid =>
    if rid = "" then
      (s, c, [{ target := Target.toSocket socketId, event := "error",
                payload := Payload.errorMsg "Invalid room ID" }])
    else
      let safeName := if userName.take 30 = "" then "Anonymous" else userName.take 30
      let g := s.roomManager.getOrCreateRoom rid
      let m1 := g.1
      let room := g.2
      let a := room.addUser socketId safeName freshId
      let room1 := a.1
      let user := a.2
      let s1 : ServerState := { s with roomManager := { rooms := mapSet m1.rooms rid room1 } }
      let c1 : ConnState := { currentRoom := some rid, currentUser := some user }
      (s1, c1,
       [{ target := Target.toSocket socketId, event := "room_state",
          payload := Payload.roomState room1.getUserList room1.drawingState.getFullState user },
        { target := Target.toOthers rid, event := "user_joined",
          payload := Payload.userJoined { id := user.id, name := user.name, color := user.color } }])

/-- The `draw_start` handler: guarded by
`if (!currentRoom || !currentUser) return;`, then stores the in-flight
stroke (overwriting any entry already under `strokeId`) and relays to the
other clients of the room. -/
def handleDrawStart (s : ServerState) (c : ConnState) (strokeId : String)
    (points : List Point) (color : String) (width : Nat) (tool : String) :
    ServerState × List Emit :=
  match c.currentRoom, c.currentUser with
  | some rid, some user =>
    let g := getInFlightForRoom s rid
    let s1 := g.1
    let roomFlights := g.2
    let entry : InFlightStroke :=
      { points := points, color := color, width := width, tool := tool,
        authorId := user.id, authorName := user.name, authorColor := user.color }
    ({ s1 with inFlightStrokes := mapSet s1.inFlightStrokes rid (mapSet roomFlights strokeId entry) },
     [{ target := Target.toOthers rid, event := "draw_start",
        payload := Payload.drawStartData strokeId points color width tool user.id user.color }])
  | _, _ => (s, [])

/-- The `draw_continue` handler: same guard; appends the new points to the
in-flight stroke (`stroke.points.push(...points)`) and relays them; an
unknown `strokeId` is silently dropped. -/
def handleDrawContinue (s : ServerState) (c : ConnState) (strokeId : String)
    (points : List Point) : ServerState × List Emit :=
  match c.currentRoom, c.currentUser with
  | some rid, some _ =>
    let g := getInFlightForRoom s rid
    let s1 := g.1
    let roomFlights := g.2
    match mapGet roomFlights strokeId with
    | none => (s1, [])
    | some stroke =>
      let stroke1 := { stroke with points := stroke.points ++ points }
      ({ s1 with inFlightStrokes := mapSet s1.inFlightStrokes rid (mapSet roomFlights strokeId stroke1) },
       [{ target := Target.toOthers rid, event := "draw_continue",
          payload := Payload.drawContinueData strokeId points }])
  | _, _ => (s, [])

/-- The `draw_end` handler: same guard; removes the in-flight entry, builds
the final command, commits it through `DrawingState.addCommand`
(`Date.now()` passed as `now`), and broadcasts the committed command to the
whole room including the sender.  An unknown `strokeId` is dropped. -/
def handleDrawEnd (s : ServerState) (c : ConnState) (strokeId : String) (now : Nat) :
    ServerState × List Emit :=
  match c.currentRoom, c.currentUser with
  | some rid, some _ =>
    let g := getInFlightForRoom s rid
    let s1 := g.1
    let roomFlights := g.2
    match mapGet roomFlights strokeId with
    | none => (s1, [])
    | some stroke =>
      let roomFlights1 := mapDelete roomFlights strokeId
      let command : Command :=
        { id := strokeId, authorId := stroke.authorId, authorName := stroke.authorName,
          authorColor := stroke.authorColor, points := stroke.points,
          color := stroke.color, width := stroke.width, tool := stroke.tool,
          undone := false, timestamp := 0 }
      let g2 := s1.roomManager.getOrCreateRoom rid
      let m1 := g2.1
      let room := g2.2
      let a := room.drawingState.addCommand command now
      let ds1 := a.1
      let command1 := a.2
      let room1 := { room with drawingState := ds1 }
      ({ roomManager := { rooms := mapSet m1.rooms rid room1 },
         inFlightStrokes := mapSet s1.inFlightStrokes rid roomFlights1 },
       [{ target := Target.toRoom rid, event := "draw_end",
          payload := Payload.drawEndData strokeId command1 }])
  | _, _ => (s, [])

/-- The `cursor_move` handler: same guard; never stored, relayed to the
other clients of the room only. -/
def handleCursorMove (s : ServerState) (c : ConnState) (x : Int) (y : Int) :
    ServerState × List Emit :=
  match c.currentRoom, c.currentUser with
  | some rid, some user =>
    (s, [{ target := Target.toOthers rid, event := "cursor_move",
           payload := Payload.cursorMoveData user.id user.name user.color x y }])
  | _, _ => (s, [])

/-- The `undo` handler: guarded by `if (!currentRoom) return;` only;
on success broadcasts `{ action, commandId }` to the whole room, otherwise
emits `error` to the requester. -/
def handleUndo (s : ServerState) (c : ConnState) (socketId : String) :
    ServerState × List Emit :=
  match c.currentRoom with
  | none => (s, [])
  | some rid =>
    let g := s.roomManager.getOrCreateRoom rid
    let m1 := g.1
    let room := g.2
    let ur := room.drawingState.undo
    let ds1 := ur.1
    let result := ur.2
    let room1 := { room with drawingState := ds1 }
    let s1 : ServerState := { s with roomManager := { rooms := mapSet m1.rooms rid room1 } }
    match result with
    | some r =>
      (s1, [{ target := Target.toRoom rid, event := "undo", payload := Payload.undoRedoData r }])
    | none =>
      (s1, [{ target := Target.toSocket socketId, event := "error",
              payload := Payload.errorMsg "Nothing to undo" }])

/-- The `redo` handler, symmetric to `undo`. -/
def handleRedo (s : ServerState) (c : ConnState) (socketId : String) :
    ServerState × List Emit :=
  match c.currentRoom with
  | none => (s, [])
  | some rid =>
    let g := s.roomManager.getOrCreateRoom rid
    let m1 := g.1
    let room := g.2
    let rr := room.drawingState.redo
    let ds1 := rr.1
    let result := rr.2
    let room1 := { room with drawingState := ds1 }
    let s1 : ServerState := { s with roomManager := { rooms := mapSet m1.rooms rid room1 } }
    match result with
    | some r =>
      (s1, [{ target := Target.toRoom rid, event := "redo", payload := Payload.undoRedoData r }])
    | none =>
      (s1, [{ target := Target.toSocket socketId, event := "error",
              payload := Payload.errorMsg "Nothing to redo" }])

/-- The `disconnect` handler: removes the user from `currentRoom`, notifies
the others, deletes every in-flight stroke whose `authorId` matches
`removedUser && removedUser.id` (a JS `===` against `null` is always false
when `removedUser` is `null`), and deletes the room plus its stroke table
when the room became empty. -/
def handleDisconnect (s : ServerState) (c : ConnState) (socketId : String) :
    ServerState × List Emit :=
  match c.currentRoom with
  | none => (s, [])
  | some rid =>
    let g := s.roomManager.getOrCreateRoom rid
    let m1 := g.1
    let room := g.2
    let rm := room.removeUser socketId
    let room1 := rm.1
    let removedUser := rm.2
    let emits :=
      match removedUser with
      | some u => [{ target := Target.toOthers rid, event := "user_left",
                     payload := Payload.userLeft u.id : Emit }]
      | none => []
    let s1 : ServerState := { s with roomManager := { rooms := mapSet m1.rooms rid room1 } }
    let g2 := getInFlightForRoom s1 rid
    let s2 := g2.1
    let roomFlights := g2.2
    let targetId : Option String := removedUser.map (fun u => u.id)
    let roomFlights1 := roomFlights.filter (fun p => !(targetId = some p.2.authorId : Bool))
    let s3 : ServerState := { s2 with inFlightStrokes := mapSet s2.inFlightStrokes rid roomFlights1 }
    if room1.isEmpty then
      ({ roomManager := s3.roomManager.deleteRoom rid,
         inFlightStrokes := mapDelete s3.inFlightStrokes rid }, emits)
    else
      (s3, emits)

/-- A command with its mutable `undone` flag normalized away, for stating
which fields an operation may change. -/
def stripUndone (c : Command) : Command := { c with undone := false }

/-- One mutation of a room's `DrawingState`, as dispatched by the server. -/
inductive LogOp where
  | append (c : Command) (now : Nat)
  | doUndo
  | doRedo
deriving DecidableEq, Repr

/-- Applying one `LogOp` to a `DrawingState`. -/
def applyLogOp (s : DrawingState) : LogOp → DrawingState
  | LogOp.append c now => (s.addCommand c now).1
  | LogOp.doUndo => s.undo.1
  | LogOp.doRedo => s.redo.1

/-- Running a sequence of `LogOp`s from the empty state. -/
def runLog (ops : List LogOp) : DrawingState :=
  ops.foldl applyLogOp DrawingState.empty

/-- The commands a sequence of `LogOp`s appends, in order, as `addCommand`
stores them (flag cleared, timestamp stamped). -/
def appendedCommands : List LogOp → List Command
  | [] => []
  | LogOp.append c now :: rest => { c with undone := false, timestamp := now } :: appendedCommands rest
  | LogOp.doUndo :: rest => appendedCommands rest
  | LogOp.doRedo :: rest => appendedCommands rest

/-- Convenience accessor for statements: the in-flight entry stored for
`strokeId` in room `roomId`. -/
def inFlightEntry (s : ServerState) (roomId strokeId : String) : Option InFlightStroke :=
  mapGet ((mapGet s.inFlightStrokes roomId).getD []) strokeId

/-- Sample command for concrete witnesses: an active stroke with id "a". -/
def cmdA : Command :=
  { id := "a", authorId := "u1", authorName := "Alice", authorColor := "#e74c3c",
    points := [{ x := 0, y := 0 }], color := "#000000", width := 3, tool := "brush",
    undone := false, timestamp := 1 }

/-- Sample command for concrete witnesses: an undone stroke with id "b". -/
def cmdB : Command := { cmdA with id := "b", undone := true, timestamp := 2 }

/-- Sample user for server-level witnesses. -/
def userAlice : User := { id := "u1", name := "Alice", color := "#e74c3c", socketId := "sock1" }

/-- A connection joined to room "r1" as Alice. -/
def connAlice : ConnState := { currentRoom := some "r1", currentUser := some userAlice }

/-- Concrete run of the join handler: "sock1" joins "r1" on a fresh server. -/
def demoJoin1 : ServerState × ConnState × List Emit :=
  handleJoinRoom ServerState.initial { currentRoom := none, currentUser := none }
    "sock1" (some "r1") "Alice" "u1"

/-- Concrete run of the join handler again on the same connection:
joining "r2" while still joined to "r1". -/
def demoJoin2 : ServerState × ConnState × List Emit :=
  handleJoinRoom demoJoin1.1 demoJoin1.2.1 "sock1" (some "r2") "Alice" "u2"

/-- Sample in-flight stroke by Alice under stroke id "s1". -/
def strokeS1 : InFlightStroke :=
  { points := [{ x := 0, y := 0 }], color := "#000000", width := 3, tool := "brush",
    authorId := "u1", authorName := "Alice", authorColor := "#e74c3c" }

/-- Sample server state with "s1" already in flight in room "r1". -/
def s4 : ServerState :=
  { roomManager := { rooms := [] }, inFlightStrokes := [("r1", [("s1", strokeS1)])] }

/-- Sample second user for the disconnect witness. -/
def userBob : User := { id := "u2", name := "Bob", color := "#3498db", socketId := "sock2" }

/-- Sample in-flight stroke by Bob under stroke id "s2". -/
def strokeBob : InFlightStroke :=
  { strokeS1 with authorId := "u2", authorName := "Bob", authorColor := "#3498db" }

/-- Sample room "r1" with Alice and Bob and one committed command. -/
def roomR1 : Room :=
  { id := "r1", users := [("sock1", userAlice), ("sock2", userBob)],
    drawingState := DrawingState.mk [cmdA] [("a", 0)], colorIndex := 2 }

/-- Sample server state for the disconnect witness: room "r1" with two
users and one in-flight stroke of each. -/
def s8 : ServerState :=
  { roomManager := { rooms := [("r1", roomR1)] },
    inFlightStrokes := [("r1", [("s1", strokeS1), ("s2", strokeBob)])] }

theorem mapGet_cons {κ ν : Type} [DecidableEq κ] (p : κ × ν) (m : List (κ × ν)) (k : κ) :
    mapGet (p :: m) k = if p.1 = k then some p.2 else mapGet m k := by
  by_cases h : p.1 = k
  · rw [if_pos h]
    unfold mapGet
    rw [List.find?_cons_of_pos _ (by simpa using h)]
    rfl
  · rw [if_neg h]
    unfold mapGet
    rw [List.find?_cons_of_neg _ (by simpa using h)]

theorem mapHas_cons {κ ν : Type} [DecidableEq κ] (p : κ × ν) (m : List (κ × ν)) (k : κ) :
    mapHas (p :: m) k = (decide (p.1 = k) || mapHas m k) := by
  simp [mapHas, List.any_cons]

theorem mapGet_mapSet_self {κ ν : Type} [DecidableEq κ] (m : List (κ × ν)) (k : κ) (v : ν) :
    mapGet (mapSet m k v) k = some v := by
  unfold mapSet
  by_cases hhas : mapHas m k
  · rw [if_pos hhas]
    induction m with
    | nil => simp [mapHas] at hhas
    | cons p rest ih =>
      by_cases h : p.1 = k
      · rw [List.map_cons, if_pos h, mapGet_cons]; simp
      · rw [List.map_cons, if_neg h, mapGet_cons, if_neg h]
        apply ih
        rw [mapHas_cons] at hhas
        simpa [h] using hhas
  · rw [if_neg hhas]
    induction m with
    | nil => simp [mapGet_cons]
    | cons p rest ih =>
      rw [mapHas_cons] at hhas
      have h : ¬ p.1 = k := by intro hk; simp [hk] at hhas
      rw [List.cons_append, mapGet_cons, if_neg h]
      apply ih
      simpa [h] using hhas

theorem mapGet_mapSet_ne {κ ν : Type} [DecidableEq κ] (m : List (κ × ν)) (k j : κ) (v : ν)
    (h : j ≠ k) : mapGet (mapSet m k v) j = mapGet m j := by
  unfold mapSet
  by_cases hhas : mapHas m k
  · rw [if_pos hhas]
    clear hhas
    induction m with
    | nil => rfl
    | cons p rest ih =>
      by_cases hp : p.1 = k
      · rw [List.map_cons, if_pos hp, mapGet_cons, mapGet_cons]
        have h1 : ¬ (k, v).1 = j := fun hk => h hk.symm
        have h2 : ¬ p.1 = j := by rw [hp]; exact fun hk => h hk.symm
        rw [if_neg h1, if_neg h2, ih]
      · rw [List.map_cons, if_neg hp, mapGet_cons, mapGet_cons, ih]
  · rw [if_neg hhas]
    clear hhas
    induction m with
    | nil =>
      rw [List.nil_append, mapGet_cons]
      have h1 : ¬ (k, v).1 = j := fun hk => h hk.symm
      rw [if_neg h1]
    | cons p rest ih =>
      rw [List.cons_append, mapGet_cons, mapGet_cons, ih]

theorem flipLastCore_cons (t : Bool) (c : Command) (rest : List Command) :
    flipLastCore t (c :: rest) =
      match flipLastCore t rest with
      | some (rest1, cid) => some (c :: rest1, cid)
      | none =>
        if c.undone = t then some ({ c with undone := !t } :: rest, c.id) else none := rfl

theorem flipLastCore_eq_none_iff (t : Bool) (l : List Command) :
    flipLastCore t l = none ↔ ∀ c ∈ l, c.undone = !t := by
  induction l with
  | nil => simp [flipLastCore]
  | cons c rest ih =>
    rw [flipLastCore_cons]
    cases hr : flipLastCore t rest with
    | some pr =>
      obtain ⟨rest1, cid1⟩ := pr
      constructor
      · intro hcontra; exact Option.noConfusion hcontra
      · intro hall
        have hn : flipLastCore t rest = none :=
          ih.mpr (fun d hd => hall d (List.mem_cons_of_mem _ hd))
        rw [hr] at hn; exact Option.noConfusion hn
    | none =>
      have hrest : ∀ d ∈ rest, d.undone = !t := ih.mp hr
      show (if c.undone = t then some ({ c with undone := !t } :: rest, c.id) else none) = none
        ↔ ∀ d ∈ c :: rest, d.undone = !t
      by_cases hc : c.undone = t
      · rw [if_pos hc]
        constructor
        · intro hcontra; exact Option.noConfusion hcontra
        · intro hall
          have h1 := hall c (List.mem_cons_self c rest)
          rw [hc] at h1
          exact absurd h1 (by cases t <;> simp)
      · rw [if_neg hc]
        have hc2 : c.undone = !t := by cases hu : c.undone <;> cases t <;> simp_all
        constructor
        · intro _ d hd
          rcases List.mem_cons.mp hd with h1 | h1
          · rw [h1]; exact hc2
          · exact hrest d h1
        · intro _; rfl

theorem flipLastCore_last (t : Bool) (pre post : List Command) (c : Command)
    (hpost : ∀ d ∈ post, d.undone = !t) (hc : c.undone = t) :
    flipLastCore t (pre ++ c :: post) =
      some (pre ++ { c with undone := !t } :: post, c.id) := by
  induction pre with
  | nil =>
    have hnone : flipLastCore t post = none := (flipLastCore_eq_none_iff t post).mpr hpost
    rw [List.nil_append, flipLastCore_cons, hnone]
    show (if c.undone = t then some ({ c with undone := !t } :: post, c.id) else none) = _
    rw [if_pos hc]
    rfl
  | cons p pre ih =>
    rw [List.cons_append, flipLastCore_cons, ih]
    rfl

theorem flipLastCore_strip (t : Bool) (l l1 : List Command) (cid : String)
    (h : flipLastCore t l = some (l1, cid)) :
    l1.map stripUndone = l.map stripUndone ∧ l1.length = l.length := by
  induction l generalizing l1 cid with
  | nil => exact Option.noConfusion h
  | cons c rest ih =>
    rw [flipLastCore_cons] at h
    cases hr : flipLastCore t rest with
    | some pr =>
      obtain ⟨rest1, cid1⟩ := pr
      rw [hr] at h
      have h3 : (c :: rest1, cid1) = (l1, cid) := Option.some_inj.mp h
      cases h3
      obtain ⟨hs, hl⟩ := ih _ _ hr
      constructor
      · rw [List.map_cons, List.map_cons, hs]
      · rw [List.length_cons, List.length_cons, hl]
    | none =>
      rw [hr] at h
      have h2 : (if c.undone = t then some ({ c with undone := !t } :: rest, c.id) else none)
          = some (l1, cid) := h
      by_cases hc : c.undone = t
      · rw [if_pos hc] at h2
        have h3 : ({ c with undone := !t } :: rest, c.id) = (l1, cid) := Option.some_inj.mp h2
        cases h3
        constructor
        · rw [List.map_cons, List.map_cons]
          rfl
        · rw [List.length_cons, List.length_cons]
      · rw [if_neg hc] at h2; exact Option.noConfusion h2

theorem undo_snd_eq_none_iff (s : DrawingState) :
    s.undo.2 = none ↔ flipLastCore false s.commandLog = none := by
  unfold DrawingState.undo
  cases h : flipLastCore false s.commandLog with
  | none => simp
  | some pr => obtain ⟨l1, cid⟩ := pr; simp

theorem redo_snd_eq_none_iff (s : DrawingState) :
    s.redo.2 = none ↔ flipLastCore true s.commandLog = none := by
  unfold DrawingState.redo
  cases h : flipLastCore true s.commandLog with
  | none => simp
  | some pr => obtain ⟨l1, cid⟩ := pr; simp

theorem undo_of_flip (s : DrawingState) (l : List Command) (cid : String)
    (h : flipLastCore false s.commandLog = some (l, cid)) :
    s.undo = ({ s with commandLog := l }, some { action := "undo", commandId := cid }) := by
  unfold DrawingState.undo
  rw [h]

theorem redo_of_flip (s : DrawingState) (l : List Command) (cid : String)
    (h : flipLastCore true s.commandLog = some (l, cid)) :
    s.redo = ({ s with commandLog := l }, some { action := "redo", commandId := cid }) := by
  unfold DrawingState.redo
  rw [h]

theorem undo_strip (s : DrawingState) :
    s.undo.1.commandLog.map stripUndone = s.commandLog.map stripUndone := by
  unfold DrawingState.undo
  cases h : flipLastCore false s.commandLog with
  | none => rfl
  | some pr =>
    obtain ⟨l1, cid⟩ := pr
    exact (flipLastCore_strip false s.commandLog l1 cid h).1

theorem redo_strip (s : DrawingState) :
    s.redo.1.commandLog.map stripUndone = s.commandLog.map stripUndone := by
  unfold DrawingState.redo
  cases h : flipLastCore true s.commandLog with
  | none => rfl
  | some pr =>
    obtain ⟨l1, cid⟩ := pr
    exact (flipLastCore_strip true s.commandLog l1 cid h).1

theorem undo_length (s : DrawingState) :
    s.undo.1.commandLog.length = s.commandLog.length := by
  unfold DrawingState.undo
  cases h : flipLastCore false s.commandLog with
  | none => rfl
  | some pr =>
    obtain ⟨l1, cid⟩ := pr
    exact (flipLastCore_strip false s.commandLog l1 cid h).2

theorem redo_length (s : DrawingState) :
    s.redo.1.commandLog.length = s.commandLog.length := by
  unfold DrawingState.redo
  cases h : flipLastCore true s.commandLog with
  | none => rfl
  | some pr =>
    obtain ⟨l1, cid⟩ := pr
    exact (flipLastCore_strip true s.commandLog l1 cid h).2

/-- C5: undo flips the last entry with `undone = false` to `true` and returns
its id, returning none exactly when every entry is undone (in particular on
the empty log); redo flips the last entry with `undone = true` back to
`false` and returns its id, returning none exactly when no entry is
undone. -/
theorem undo_redo_functional_spec (s : DrawingState) :
    ((s.undo.2 = none ↔ ∀ c ∈ s.commandLog, c.undone = true) ∧
      ∀ pre c post, s.commandLog = pre ++ c :: post → c.undone = false →
        (∀ d ∈ post, d.undone = true) →
        s.undo = ({ s with commandLog := pre ++ { c with undone := true } :: post },
                  some { action := "undo", commandId := c.id })) ∧
    ((s.redo.2 = none ↔ ∀ c ∈ s.commandLog, c.undone = false) ∧
      ∀ pre c post, s.commandLog = pre ++ c :: post → c.undone = true →
        (∀ d ∈ post, d.undone = false) →
        s.redo = ({ s with commandLog := pre ++ { c with undone := false } :: post },
                  some { action := "redo", commandId := c.id })) := by
  refine ⟨⟨?_, ?_⟩, ?_, ?_⟩
  · rw [undo_snd_eq_none_iff, flipLastCore_eq_none_iff]
    simp
  · intro pre c post h hc hpost
    have hflip := flipLastCore_last false pre post c (by simpa using hpost) hc
    rw [← h] at hflip
    exact undo_of_flip s _ _ hflip
  · rw [redo_snd_eq_none_iff, flipLastCore_eq_none_iff]
    simp
  · intro pre c post h hc hpost
    have hflip := flipLastCore_last true pre post c (by simpa using hpost) hc
    rw [← h] at hflip
    exact redo_of_flip s _ _ hflip

/-- Witness for C5 at a concrete log `[cmdA, cmdB]` (`cmdA` active, `cmdB`
undone): undo flips `cmdA` and reports id "a". -/
theorem undo_redo_functional_spec_witness :
    (DrawingState.mk [cmdA, cmdB] [("a", 0), ("b", 1)]).undo
      = ({ DrawingState.mk [cmdA, cmdB] [("a", 0), ("b", 1)] with
            commandLog := [] ++ { cmdA with undone := true } :: [cmdB] },
         some { action := "undo", commandId := cmdA.id }) :=
  (undo_redo_functional_spec (DrawingState.mk [cmdA, cmdB] [("a", 0), ("b", 1)])).1.2
    [] cmdA [cmdB] rfl rfl (by decide)

/-- C1 counterexample: the log `[cmdA, cmdB]` (`cmdA` active, `cmdB` undone,
reachable as append a; append b; undo) has an active command, yet undo
followed by redo changes `getActiveCommands` from `[cmdA]` to `[cmdB]`:
redo revives the most recently *appended* undone entry, not the entry the
undo just flipped. -/
theorem undo_redo_round_trip_cex :
    ((DrawingState.mk [cmdA, cmdB] [("a", 0), ("b", 1)]).commandLog.any
        (fun c => !c.undone) = true) ∧
    ((DrawingState.mk [cmdA, cmdB] [("a", 0), ("b", 1)]).undo.1.redo.1.getActiveCommands
      ≠ (DrawingState.mk [cmdA, cmdB] [("a", 0), ("b", 1)]).getActiveCommands) := by
  decide

/-- C1 (amended): when the *last* entry of the log is active, undo followed
by redo restores the whole drawing state, in particular
`getActiveCommands`.  (When the last entry is already undone, redo targets
that entry rather than the one undo flipped, and the round trip fails.) -/
theorem undo_redo_round_trip_amended (s : DrawingState) (pre : List Command) (c : Command)
    (h : s.commandLog = pre ++ [c]) (hc : c.undone = false) :
    s.undo.1.redo.1 = s ∧ s.undo.1.redo.1.getActiveCommands = s.getActiveCommands := by
  have h1 : flipLastCore false s.commandLog
      = some (pre ++ [{ c with undone := true }], c.id) := by
    rw [h]
    exact flipLastCore_last false pre [] c (by simp) hc
  have h2 : s.undo.1 = { s with commandLog := pre ++ [{ c with undone := true }] } := by
    rw [undo_of_flip s _ _ h1]
  have h3 : flipLastCore true (pre ++ [{ c with undone := true }])
      = some (pre ++ [{ c with undone := false }], c.id) :=
    flipLastCore_last true pre [] { c with undone := true } (by simp) rfl
  have hc2 : ({ c with undone := false } : Command) = c := by
    rcases c with ⟨i, ai, an, ac, pts, col, w, tl, u, ts⟩
    simp only at hc
    rw [hc]
  have h4 : s.undo.1.redo.1 = s := by
    rw [h2, redo_of_flip { s with commandLog := pre ++ [{ c with undone := true }] } _ _ h3]
    rw [hc2]
    rcases s with ⟨log, idx⟩
    simp only at h
    simp [← h]
  exact ⟨h4, by rw [h4]⟩

/-- Witness for C1 (amended) at the log `[cmdB, cmdA]` whose last entry
`cmdA` is active. -/
theorem undo_redo_round_trip_amended_witness :
    (DrawingState.mk [cmdB, cmdA] [("b", 0), ("a", 1)]).undo.1.redo.1
        = DrawingState.mk [cmdB, cmdA] [("b", 0), ("a", 1)] ∧
    (DrawingState.mk [cmdB, cmdA] [("b", 0), ("a", 1)]).undo.1.redo.1.getActiveCommands
        = (DrawingState.mk [cmdB, cmdA] [("b", 0), ("a", 1)]).getActiveCommands :=
  undo_redo_round_trip_amended (DrawingState.mk [cmdB, cmdA] [("b", 0), ("a", 1)])
    [cmdB] cmdA rfl (by decide)

/-- C3 counterexample: appending a command whose id "a" is already indexed
is not rejected: the log grows and afterwards holds two entries with
id "a". -/
theorem append_duplicate_id_cex :
    ((DrawingState.mk [cmdA] [("a", 0)]).addCommand
        { cmdA with points := [{ x := 9, y := 9 }] } 7).1.commandLog.countP
        (fun c => c.id = "a") = 2 ∧
    ((DrawingState.mk [cmdA] [("a", 0)]).addCommand
        { cmdA with points := [{ x := 9, y := 9 }] } 7).1.commandLog
      ≠ (DrawingState.mk [cmdA] [("a", 0)]).commandLog := by
  decide

theorem addCommand_spec (s : DrawingState) (c : Command) (now : Nat) :
    (s.addCommand c now).1.commandLog
        = s.commandLog ++ [{ c with undone := false, timestamp := now }] ∧
    mapGet (s.addCommand c now).1.commandIndex c.id = some s.commandLog.length := by
  exact ⟨rfl, mapGet_mapSet_self s.commandIndex c.id s.commandLog.length⟩

/-- C3 (amended): `addCommand` never rejects: for every command, duplicate
id or not, it appends the command (flag cleared, timestamp stamped) and
points the index entry for that id at the new position; a duplicate id thus
yields a second log entry under the same id. -/
theorem append_always_appends (s : DrawingState) (c : Command) (now : Nat) :
    (s.addCommand c now).1.commandLog
        = s.commandLog ++ [{ c with undone := false, timestamp := now }] ∧
    mapGet (s.addCommand c now).1.commandIndex c.id = some s.commandLog.length :=
  addCommand_spec s c now

/-- Witness for C3 (amended): appending "b" onto a log already holding "a". -/
theorem append_always_appends_witness :
    ((DrawingState.mk [cmdA] [("a", 0)]).addCommand cmdB 7).1.commandLog
        = (DrawingState.mk [cmdA] [("a", 0)]).commandLog
            ++ [{ cmdB with undone := false, timestamp := 7 }] ∧
    mapGet ((DrawingState.mk [cmdA] [("a", 0)]).addCommand cmdB 7).1.commandIndex cmdB.id
        = some (DrawingState.mk [cmdA] [("a", 0)]).commandLog.length :=
  append_always_appends (DrawingState.mk [cmdA] [("a", 0)]) cmdB 7

theorem applyLogOp_strip_append (ops : List LogOp) : ∀ s : DrawingState,
    (ops.foldl applyLogOp s).commandLog.map stripUndone
      = s.commandLog.map stripUndone ++ appendedCommands ops := by
  induction ops with
  | nil => intro s; simp [appendedCommands]
  | cons op rest ih =>
    intro s
    rw [List.foldl_cons, ih]
    cases op with
    | append c now =>
      show (s.addCommand c now).1.commandLog.map stripUndone ++ appendedCommands rest = _
      rw [(addCommand_spec s c now).1]
      simp [appendedCommands, stripUndone]
    | doUndo =>
      show DrawingState.undo s |>.1.commandLog.map stripUndone ++ appendedCommands rest = _
      rw [undo_strip]
      rfl
    | doRedo =>
      show DrawingState.redo s |>.1.commandLog.map stripUndone ++ appendedCommands rest = _
      rw [redo_strip]
      rfl

/-- C7: after any sequence of append / undo / redo operations from the empty
log, `getActiveCommands` is exactly the filter of the entries on
`undone = false`, and the entries are exactly the appended commands in
append order (with only the `undone` flag possibly differing). -/
theorem active_commands_spec (ops : List LogOp) :
    (runLog ops).getActiveCommands
        = (runLog ops).commandLog.filter (fun c => !c.undone) ∧
    (runLog ops).commandLog.map stripUndone = appendedCommands ops := by
  refine ⟨rfl, ?_⟩
  have h := applyLogOp_strip_append ops DrawingState.empty
  simpa [runLog, DrawingState.empty] using h

/-- Witness for C7: a concrete append-append-undo run. -/
theorem active_commands_spec_witness :
    (runLog [LogOp.append cmdA 1, LogOp.append cmdB 2, LogOp.doUndo]).getActiveCommands
        = (runLog [LogOp.append cmdA 1, LogOp.append cmdB 2,
            LogOp.doUndo]).commandLog.filter (fun c => !c.undone) ∧
    (runLog [LogOp.append cmdA 1, LogOp.append cmdB 2, LogOp.doUndo]).commandLog.map stripUndone
        = appendedCommands [LogOp.append cmdA 1, LogOp.append cmdB 2, LogOp.doUndo] :=
  active_commands_spec [LogOp.append cmdA 1, LogOp.append cmdB 2, LogOp.doUndo]

/-- C9: each of append, undo, redo only extends the entry list at the end
(the old entries, up to their `undone` flag, stay a prefix); append leaves
every existing entry completely unchanged and pushes exactly one stamped
entry; undo and redo preserve the length (and, by the prefix part, every
field except `undone`). -/
theorem log_entries_immutable (s : DrawingState) (op : LogOp) :
    s.commandLog.map stripUndone <+: (applyLogOp s op).commandLog.map stripUndone ∧
    (∀ c now, op = LogOp.append c now →
      (applyLogOp s op).commandLog
        = s.commandLog ++ [{ c with undone := false, timestamp := now }]) ∧
    ((op = LogOp.doUndo ∨ op = LogOp.doRedo) →
      (applyLogOp s op).commandLog.length = s.commandLog.length) := by
  cases op with
  | append c now =>
    refine ⟨?_, ?_, ?_⟩
    · show s.commandLog.map stripUndone <+: (s.addCommand c now).1.commandLog.map stripUndone
      rw [(addCommand_spec s c now).1, List.map_append]
      exact List.prefix_append _ _
    · intro c1 now1 h
      cases h
      exact (addCommand_spec s c now).1
    · intro h
      rcases h with h | h <;> exact LogOp.noConfusion h
  | doUndo =>
    refine ⟨?_, ?_, ?_⟩
    · show s.commandLog.map stripUndone <+: s.undo.1.commandLog.map stripUndone
      rw [undo_strip]
    · intro c1 now1 h; exact LogOp.noConfusion h
    · intro _; exact undo_length s
  | doRedo =>
    refine ⟨?_, ?_, ?_⟩
    · show s.commandLog.map stripUndone <+: s.redo.1.commandLog.map stripUndone
      rw [redo_strip]
    · intro c1 now1 h; exact LogOp.noConfusion h
    · intro _; exact redo_length s

/-- Witness for C9 at a concrete state and the undo operation. -/
theorem log_entries_immutable_witness :
    (DrawingState.mk [cmdA, cmdB] [("a", 0), ("b", 1)]).commandLog.map stripUndone
        <+: (applyLogOp (DrawingState.mk [cmdA, cmdB] [("a", 0), ("b", 1)])
              LogOp.doUndo).commandLog.map stripUndone ∧
    (∀ c now, LogOp.doUndo = LogOp.append c now →
      (applyLogOp (DrawingState.mk [cmdA, cmdB] [("a", 0), ("b", 1)]) LogOp.doUndo).commandLog
        = (DrawingState.mk [cmdA, cmdB] [("a", 0), ("b", 1)]).commandLog
            ++ [{ c with undone := false, timestamp := now }]) ∧
    ((LogOp.doUndo = LogOp.doUndo ∨ LogOp.doUndo = LogOp.doRedo) →
      (applyLogOp (DrawingState.mk [cmdA, cmdB] [("a", 0), ("b", 1)])
          LogOp.doUndo).commandLog.length
        = (DrawingState.mk [cmdA, cmdB] [("a", 0), ("b", 1)]).commandLog.length) :=
  log_entries_immutable (DrawingState.mk [cmdA, cmdB] [("a", 0), ("b", 1)]) LogOp.doUndo

theorem getInFlightForRoom_snd (s : ServerState) (rid : String) :
    (getInFlightForRoom s rid).2 = (mapGet s.inFlightStrokes rid).getD [] := by
  unfold getInFlightForRoom
  cases h : mapGet s.inFlightStrokes rid <;> rfl

theorem getInFlightForRoom_roomManager (s : ServerState) (rid : String) :
    (getInFlightForRoom s rid).1.roomManager = s.roomManager := by
  unfold getInFlightForRoom
  cases h : mapGet s.inFlightStrokes rid <;> rfl

theorem getOrCreateRoom_of_mem (m : RoomManager) (rid : String) (r : Room)
    (h : mapGet m.rooms rid = some r) :
    m.getOrCreateRoom rid = (m, r) := by
  unfold RoomManager.getOrCreateRoom
  rw [h]

/-- C10: events from a connection that never joined a room
(`currentRoom`/`currentUser` unset) are complete no-ops: every guarded
handler returns the server state unchanged and emits nothing. -/
theorem unjoined_events_noop (s : ServerState) (c : ConnState)
    (h1 : c.currentRoom = none) (h2 : c.currentUser = none)
    (strokeId : String) (pts : List Point) (col : String) (w : Nat) (tl : String)
    (x y : Int) (now : Nat) (sock : String) :
    handleDrawStart s c strokeId pts col w tl = (s, []) ∧
    handleDrawContinue s c strokeId pts = (s, []) ∧
    handleDrawEnd s c strokeId now = (s, []) ∧
    handleCursorMove s c x y = (s, []) ∧
    handleUndo s c sock = (s, []) ∧
    handleRedo s c sock = (s, []) := by
  obtain ⟨cr, cu⟩ := c
  have h1a : cr = none := h1
  have h2a : cu = none := h2
  subst h1a; subst h2a
  exact ⟨rfl, rfl, rfl, rfl, rfl, rfl⟩

/-- Witness for C10 at the initial server state and a fresh connection. -/
theorem unjoined_events_noop_witness :
    handleDrawStart ServerState.initial ⟨none, none⟩ "s1" [] "#000000" 3 "brush"
        = (ServerState.initial, []) ∧
    handleDrawContinue ServerState.initial ⟨none, none⟩ "s1" [] = (ServerState.initial, []) ∧
    handleDrawEnd ServerState.initial ⟨none, none⟩ "s1" 5 = (ServerState.initial, []) ∧
    handleCursorMove ServerState.initial ⟨none, none⟩ 0 0 = (ServerState.initial, []) ∧
    handleUndo ServerState.initial ⟨none, none⟩ "sock1" = (ServerState.initial, []) ∧
    handleRedo ServerState.initial ⟨none, none⟩ "sock1" = (ServerState.initial, []) :=
  unjoined_events_noop ServerState.initial ⟨none, none⟩ rfl rfl "s1" [] "#000000" 3 "brush"
    0 0 5 "sock1"

theorem drawStart_run (s : ServerState) (rid : String) (u : User)
    (strokeId : String) (pts : List Point) (col : String) (w : Nat) (tl : String) :
    (handleDrawStart s ⟨some rid, some u⟩ strokeId pts col w tl).1.roomManager
        = s.roomManager ∧
    inFlightEntry (handleDrawStart s ⟨some rid, some u⟩ strokeId pts col w tl).1 rid strokeId
      = some { points := pts, color := col, width := w, tool := tl,
               authorId := u.id, authorName := u.name, authorColor := u.color } ∧
    (handleDrawStart s ⟨some rid, some u⟩ strokeId pts col w tl).2
      = [{ target := Target.toOthers rid, event := "draw_start",
           payload := Payload.drawStartData strokeId pts col w tl u.id u.color }] := by
  refine ⟨?_, ?_, ?_⟩
  · show (getInFlightForRoom s rid).1.roomManager = s.roomManager
    exact getInFlightForRoom_roomManager s rid
  · show mapGet ((mapGet (mapSet (getInFlightForRoom s rid).1.inFlightStrokes rid
        (mapSet (getInFlightForRoom s rid).2 strokeId _)) rid).getD []) strokeId = _
    rw [mapGet_mapSet_self]
    show mapGet (mapSet (getInFlightForRoom s rid).2 strokeId _) strokeId = _
    rw [mapGet_mapSet_self]
  · rfl

theorem drawContinue_run (s : ServerState) (rid : String) (u : User)
    (strokeId : String) (ps : List Point) (entry : InFlightStroke)
    (h : inFlightEntry s rid strokeId = some entry) :
    (handleDrawContinue s ⟨some rid, some u⟩ strokeId ps).1.roomManager = s.roomManager ∧
    inFlightEntry (handleDrawContinue s ⟨some rid, some u⟩ strokeId ps).1 rid strokeId
      = some { entry with points := entry.points ++ ps } := by
  have h2 : mapGet (getInFlightForRoom s rid).2 strokeId = some entry := by
    rw [getInFlightForRoom_snd]; exact h
  unfold handleDrawContinue
  simp only [h2]
  refine ⟨?_, ?_⟩
  · show (getInFlightForRoom s rid).1.roomManager = s.roomManager
    exact getInFlightForRoom_roomManager s rid
  · show mapGet ((mapGet (mapSet (getInFlightForRoom s rid).1.inFlightStrokes rid
        (mapSet (getInFlightForRoom s rid).2 strokeId _)) rid).getD []) strokeId = _
    rw [mapGet_mapSet_self]
    show mapGet (mapSet (getInFlightForRoom s rid).2 strokeId _) strokeId = _
    rw [mapGet_mapSet_self]

theorem drawEnd_run (s : ServerState) (rid : String) (u : User)
    (strokeId : String) (now : Nat) (stroke : InFlightStroke)
    (h : inFlightEntry s rid strokeId = some stroke) :
    (handleDrawEnd s ⟨some rid, some u⟩ strokeId now).2
      = [{ target := Target.toRoom rid, event := "draw_end",
           payload := Payload.drawEndData strokeId
             { id := strokeId, authorId := stroke.authorId, authorName := stroke.authorName,
               authorColor := stroke.authorColor, points := stroke.points,
               color := stroke.color, width := stroke.width, tool := stroke.tool,
               undone := false, timestamp := now } }] := by
  have h2 : mapGet (getInFlightForRoom s rid).2 strokeId = some stroke := by
    rw [getInFlightForRoom_snd]; exact h
  unfold handleDrawEnd
  simp only [h2]
  rfl

theorem drawContinue_foldl (rid : String) (u : User) (strokeId : String)
    (exts : List (List Point)) : ∀ (s : ServerState) (entry : InFlightStroke),
    inFlightEntry s rid strokeId = some entry →
    inFlightEntry
        (exts.foldl (fun st ps => (handleDrawContinue st ⟨some rid, some u⟩ strokeId ps).1) s)
        rid strokeId
      = some { entry with points := entry.points ++ exts.flatten } := by
  induction exts with
  | nil =>
    intro s entry h
    simpa using h
  | cons ps rest ih =>
    intro s entry h
    rw [List.foldl_cons]
    have step := (drawContinue_run s rid u strokeId ps entry h).2
    rw [ih _ _ step]
    show some { entry with points := (entry.points ++ ps) ++ rest.flatten }
      = some { entry with points := entry.points ++ (ps :: rest).flatten }
    rw [List.flatten_cons, List.append_assoc]

/-- C6: for a gesture draw_start + k draw_continue + draw_end on one
connection, the committed Command broadcast by draw_end has a points
sequence equal to the concatenation of the first points and every
extension's new points, in call order. -/
theorem stroke_points_concat (s : ServerState) (c : ConnState) (rid : String) (u : User)
    (hc : c.currentRoom = some rid) (hu : c.currentUser = some u)
    (strokeId : String) (firstPoints : List Point) (exts : List (List Point))
    (col : String) (w : Nat) (tl : String) (now : Nat) :
    (handleDrawEnd
        (exts.foldl (fun st ps => (handleDrawContinue st c strokeId ps).1)
          (handleDrawStart s c strokeId firstPoints col w tl).1)
        c strokeId now).2
      = [{ target := Target.toRoom rid, event := "draw_end",
           payload := Payload.drawEndData strokeId
             { id := strokeId, authorId := u.id, authorName := u.name,
               authorColor := u.color, points := firstPoints ++ exts.flatten,
               color := col, width := w, tool := tl,
               undone := false, timestamp := now } }] := by
  obtain ⟨cr, cu⟩ := c
  have hc1 : cr = some rid := hc
  have hu1 : cu = some u := hu
  subst hc1; subst hu1
  have h1 := (drawStart_run s rid u strokeId firstPoints col w tl).2.1
  have h2 := drawContinue_foldl rid u strokeId exts _ _ h1
  have h3 := drawEnd_run _ rid u strokeId now _ h2
  simpa using h3

/-- Witness for C6: a concrete three-event gesture in room "r1". -/
theorem stroke_points_concat_witness :
    (handleDrawEnd
        ([[({ x := 1, y := 1 } : Point)], [{ x := 2, y := 2 }]].foldl
          (fun st ps => (handleDrawContinue st connAlice "s1" ps).1)
          (handleDrawStart ServerState.initial connAlice "s1"
            [{ x := 0, y := 0 }] "#000000" 3 "brush").1)
        connAlice "s1" 42).2
      = [{ target := Target.toRoom "r1", event := "draw_end",
           payload := Payload.drawEndData "s1"
             { id := "s1", authorId := "u1", authorName := "Alice",
               authorColor := "#e74c3c",
               points := [{ x := 0, y := 0 }, { x := 1, y := 1 }, { x := 2, y := 2 }],
               color := "#000000", width := 3, tool := "brush",
               undone := false, timestamp := 42 } }] := by
  have h := stroke_points_concat ServerState.initial connAlice "r1" userAlice rfl rfl
    "s1" [{ x := 0, y := 0 }] [[{ x := 1, y := 1 }], [{ x := 2, y := 2 }]]
    "#000000" 3 "brush" 42
  exact h

/-- C4 counterexample: with "s1" already in flight in room "r1", a second
draw_start for the same stroke id does not fail with any error: the old
entry is replaced by the new one and only the relay to the others is
emitted. -/
theorem begin_duplicate_stroke_cex :
    inFlightEntry s4 "r1" "s1" = some strokeS1 ∧
    inFlightEntry
        (handleDrawStart s4 connAlice "s1" [{ x := 5, y := 5 }] "#ffffff" 9 "eraser").1
        "r1" "s1"
      = some { points := [{ x := 5, y := 5 }], color := "#ffffff", width := 9,
               tool := "eraser", authorId := "u1", authorName := "Alice",
               authorColor := "#e74c3c" } ∧
    ((handleDrawStart s4 connAlice "s1" [{ x := 5, y := 5 }] "#ffffff" 9 "eraser").2.all
        (fun e => e.event ≠ "error")) = true := by
  decide

/-- C4 (amended): draw_start never rejects: whether or not `strokeId` is
already tracked, the room's in-flight entry for it is set to the new entry
(overwriting and discarding any previous one) and exactly the relay to the
other room members is emitted — never an error. -/
theorem begin_overwrites_no_error (s : ServerState) (c : ConnState) (rid : String) (u : User)
    (hc : c.currentRoom = some rid) (hu : c.currentUser = some u)
    (strokeId : String) (pts : List Point) (col : String) (w : Nat) (tl : String) :
    inFlightEntry (handleDrawStart s c strokeId pts col w tl).1 rid strokeId
      = some { points := pts, color := col, width := w, tool := tl,
               authorId := u.id, authorName := u.name, authorColor := u.color } ∧
    (handleDrawStart s c strokeId pts col w tl).2
      = [{ target := Target.toOthers rid, event := "draw_start",
           payload := Payload.drawStartData strokeId pts col w tl u.id u.color }] := by
  obtain ⟨cr, cu⟩ := c
  have hc1 : cr = some rid := hc
  have hu1 : cu = some u := hu
  subst hc1; subst hu1
  exact ⟨(drawStart_run s rid u strokeId pts col w tl).2.1,
         (drawStart_run s rid u strokeId pts col w tl).2.2⟩

/-- Witness for C4 (amended) at a concrete server state. -/
theorem begin_overwrites_no_error_witness :
    inFlightEntry
        (handleDrawStart s4 connAlice "s2" [{ x := 5, y := 5 }] "#ffffff" 9 "eraser").1
        "r1" "s2"
      = some { points := [{ x := 5, y := 5 }], color := "#ffffff", width := 9,
               tool := "eraser", authorId := userAlice.id, authorName := userAlice.name,
               authorColor := userAlice.color } ∧
    (handleDrawStart s4 connAlice "s2" [{ x := 5, y := 5 }] "#ffffff" 9 "eraser").2
      = [{ target := Target.toOthers "r1", event := "draw_start",
           payload := Payload.drawStartData "s2" [{ x := 5, y := 5 }] "#ffffff" 9 "eraser"
             userAlice.id userAlice.color }] :=
  begin_overwrites_no_error s4 connAlice "r1" userAlice rfl rfl
    "s2" [{ x := 5, y := 5 }] "#ffffff" 9 "eraser"

theorem filter_author_eq (u : User) (l : List (String × InFlightStroke)) :
    l.filter (fun p => !((some u.id : Option String) = some p.2.authorId : Bool))
      = l.filter (fun p => p.2.authorId ≠ u.id) := by
  apply List.filter_congr
  intro p _
  by_cases h : p.2.authorId = u.id
  · have h2 : (some u.id : Option String) = some p.2.authorId := by rw [h]
    rw [decide_eq_true h2, decide_eq_false (fun hne => hne h)]
    rfl
  · have h2 : ¬ (some u.id : Option String) = some p.2.authorId :=
      fun he => h (Option.some_inj.mp he).symm
    rw [decide_eq_false h2, decide_eq_true h]
    rfl

theorem disconnect_run (s : ServerState) (rid sock : String) (cu : Option User)
    (r0 : Room) (u : User)
    (hr : mapGet s.roomManager.rooms rid = some r0)
    (hu : mapGet r0.users sock = some u)
    (hne : (mapDelete r0.users sock).isEmpty = false) :
    mapGet (handleDisconnect s ⟨some rid, cu⟩ sock).1.roomManager.rooms rid
      = some { r0 with users := mapDelete r0.users sock } ∧
    mapGet (handleDisconnect s ⟨some rid, cu⟩ sock).1.inFlightStrokes rid
      = some (((mapGet s.inFlightStrokes rid).getD []).filter
          (fun p => p.2.authorId ≠ u.id)) ∧
    (handleDisconnect s ⟨some rid, cu⟩ sock).2
      = [{ target := Target.toOthers rid, event := "user_left",
           payload := Payload.userLeft u.id }] := by
  have hg : s.roomManager.getOrCreateRoom rid = (s.roomManager, r0) :=
    getOrCreateRoom_of_mem s.roomManager rid r0 hr
  unfold handleDisconnect
  simp only [hg, Room.removeUser, hu, Room.isEmpty, hne, Option.map, getInFlightForRoom_snd,
    getInFlightForRoom_roomManager, mapGet_mapSet_self, Option.getD_some, Bool.false_eq_true,
    if_false]
  refine ⟨trivial, ?_, trivial⟩
  rw [filter_author_eq]

/-- C8: when a joined user disconnects, every in-flight stroke whose
authorId is the departing user's id is removed from the room's in-flight
table — the table becomes exactly the old table filtered to the other
authors — while the room keeps its command log (and every committed command
of that user) unchanged: only its user set shrinks.  Stated for a
disconnect that leaves the room non-empty; an emptied room is deleted
outright as a whole. -/
theorem disconnect_cleanup (s : ServerState) (c : ConnState) (sock rid : String)
    (r0 : Room) (u : User)
    (hc : c.currentRoom = some rid)
    (hr : mapGet s.roomManager.rooms rid = some r0)
    (hu : mapGet r0.users sock = some u)
    (hne : (mapDelete r0.users sock).isEmpty = false) :
    mapGet (handleDisconnect s c sock).1.roomManager.rooms rid
      = some { r0 with users := mapDelete r0.users sock } ∧
    mapGet (handleDisconnect s c sock).1.inFlightStrokes rid
      = some (((mapGet s.inFlightStrokes rid).getD []).filter
          (fun p => p.2.authorId ≠ u.id)) ∧
    ∀ e ∈ ((mapGet (handleDisconnect s c sock).1.inFlightStrokes rid).getD []),
      e.2.authorId ≠ u.id := by
  obtain ⟨cr, cu⟩ := c
  have hc1 : cr = some rid := hc
  subst hc1
  obtain ⟨h1, h2, h3⟩ := disconnect_run s rid sock cu r0 u hr hu hne
  refine ⟨h1, h2, ?_⟩
  rw [h2]
  intro e he
  have hmem := List.of_mem_filter he
  simpa using hmem

/-- Witness for C8: Alice disconnects from the two-user room "r1"; her
in-flight stroke "s1" is dropped, Bob's "s2" survives, the command log
stays. -/
theorem disconnect_cleanup_witness :
    mapGet (handleDisconnect s8 connAlice "sock1").1.roomManager.rooms "r1"
      = some { roomR1 with users := mapDelete roomR1.users "sock1" } ∧
    mapGet (handleDisconnect s8 connAlice "sock1").1.inFlightStrokes "r1"
      = some (((mapGet s8.inFlightStrokes "r1").getD []).filter
          (fun p => p.2.authorId ≠ userAlice.id)) ∧
    ∀ e ∈ ((mapGet (handleDisconnect s8 connAlice "sock1").1.inFlightStrokes "r1").getD []),
      e.2.authorId ≠ userAlice.id :=
  disconnect_cleanup s8 connAlice "sock1" "r1" roomR1 userAlice rfl (by decide)
    (by decide) (by decide)

/-- C2: bug demonstration at a concrete input: after "sock1" joins "r1" and
then sends a second join_room for "r2" on the same connection, the handler
only leaves the transport-level channel: the user entry for "sock1" is
still present in room "r1"'s user set, "r1" stays in the registry, and no
user_left event is emitted for it. -/
theorem rejoin_leaves_ghost_user :
    demoJoin1.2.1.currentRoom = some "r1" ∧
    demoJoin2.2.1.currentRoom = some "r2" ∧
    (mapGet demoJoin2.1.roomManager.rooms "r1").map
        (fun r => r.users.map (fun p => (p.1, p.2.id)))
      = some [("sock1", "u1")] ∧
    (demoJoin2.2.2.all (fun e => e.event ≠ "user_left")) = true := by
  decide

end Canvas
